import Mathlib

/-!
Verification development for the training progression and evaluation
subsystem of the dating-coach backend.

The definitions below are a shallow embedding of the Python sources
`app/services/progress_service.py` and `app/services/evaluator.py`:

* the database table `training_progress` is modelled as a list of rows
  (`Store`), with SQLAlchemy's `scalar_one_or_none` on the
  (user, submode, level) key modelled as `List.find?` (the services only
  ever insert a row for a key after checking it is absent, so at most one
  row per key ever exists) and in-place row mutation modelled as
  rewriting the first matching row;
* timestamps (`datetime.utcnow()`) are modelled as `Nat` values passed in
  explicitly;
* user ids (UUIDs) are modelled as `Nat`;
* `json.loads` is modelled by an executable JSON parser over `List Char`
  covering the constructs the scoring responses use (null, booleans,
  integers, strings with the common escapes, arrays, objects); floating
  point literals and \uXXXX escapes are outside the model;
* Python exceptions that the source does not catch are modelled with
  `Except`.
-/

/-- Characters that are awkward to write literally are named here. -/
def btChar : Char := Char.ofNat 96

def lbraceChar : Char := Char.ofNat 123

def rbraceChar : Char := Char.ofNat 125

def lbrackChar : Char := '['

def rbrackChar : Char := ']'

/-- Row of the `training_progress` table (`app/models.py` / the rows built
by `ProgressService` and `Evaluator`). -/
structure TrainingProgress where
  user_id : Nat
  submode_id : String
  difficulty_level : Nat
  is_unlocked : Bool
  passed : Bool
  passed_at : Option Nat
deriving DecidableEq, Repr

/-- The `training_progress` table content. -/
abbrev Store := List TrainingProgress

/-- Statuses of a training attempt (`AttemptStatus` in `app/models.py`). -/
inductive AttemptStatus where
  | pass_
  | fail
deriving DecidableEq, Repr

/-- Campaign order of the trainings, `TRAINING_ORDER` in
`app/services/progress_service.py` (the same list is duplicated in
`app/services/evaluator.py`). -/
def TRAINING_ORDER : List String :=
  ["first_contact", "keep_conversation", "losing_interest", "rejections",
   "ask_for_date", "intimacy_boundaries", "after_date"]

/-- Difficulty levels, `DIFFICULTY_LEVELS` in `progress_service.py`. -/
def DIFFICULTY_LEVELS : List Nat := [1, 2, 3]

/-- Model of `ProgressService._next_submode` (and the identical
`Evaluator._next_submode`): position of `t` in `TRAINING_ORDER`, then the
following entry, `none` when `t` is last or absent. -/
def nextSubmode (t : String) : Option String :=
  match TRAINING_ORDER.indexOf? t with
  | none => none
  | some i => TRAINING_ORDER.get? (i + 1)

/-- The `where` clause shared by every row lookup: the row carries the
given (user, submode, level) key. -/
def keyMatch (u : Nat) (t : String) (l : Nat) (r : TrainingProgress) : Bool :=
  r.user_id == u && r.submode_id == t && r.difficulty_level == l

/-- Lookup of the row for a (user, submode, level) key: models the
`select ... where` + `scalar_one_or_none()` pattern used by both services. -/
def lookupRow (s : Store) (u : Nat) (t : String) (l : Nat) : Option TrainingProgress :=
  List.find? (keyMatch u t l) s

/-- Rewrite the first row matching the key using `f`: models SQLAlchemy's
in-place mutation of the row object returned by `scalar_one_or_none`. -/
def modifyFirst (f : TrainingProgress → TrainingProgress) (u : Nat) (t : String) (l : Nat) :
    Store → Store
  | [] => []
  | r :: rest =>
    if keyMatch u t l r then
      f r :: rest
    else
      r :: modifyFirst f u t l rest

/-- Field update performed by the `_unlock` methods on an existing row. -/
def setUnlockedField (r : TrainingProgress) : TrainingProgress :=
  { r with is_unlocked := true }

/-- Field update performed by `Evaluator._set_passed` on an existing row. -/
def setPassedField (now : Nat) (r : TrainingProgress) : TrainingProgress :=
  { r with passed := true, passed_at := some now }

/-- Unlocked-state of a key as seen through `lookupRow`; an absent row
counts as locked. -/
def isUnlocked (s : Store) (u : Nat) (t : String) (l : Nat) : Bool :=
  match lookupRow s u t l with
  | some r => r.is_unlocked
  | none => false

/-- Passed-state of a key as seen through `lookupRow`; an absent row
counts as not passed. -/
def passedB (s : Store) (u : Nat) (t : String) (l : Nat) : Bool :=
  match lookupRow s u t l with
  | some r => r.passed
  | none => false

namespace ProgressService

/-- Bootstrap unlock list of `ProgressService.initialize_progress`
(`initial_unlocks` in the source). -/
def initial_unlocks : List (String × Nat) :=
  [("first_contact", 1), ("first_contact", 2), ("keep_conversation", 1)]

/-- Rows inserted by `initialize_progress` for user `u`. -/
def initRows (u : Nat) : Store :=
  initial_unlocks.map (fun p =>
    { user_id := u, submode_id := p.1, difficulty_level := p.2,
      is_unlocked := true, passed := false, passed_at := none })

/-- Model of `ProgressService.initialize_progress`: delete every row of the
user, then insert the bootstrap rows. -/
def initialize_progress (s : Store) (u : Nat) : Store :=
  (List.filter (fun r => !(r.user_id == u)) s) ++ initRows u

/-- Level entry of the progress snapshot returned by `get_progress`. -/
structure LevelState where
  difficulty_level : Nat
  is_unlocked : Bool
  passed : Bool
  passed_at : Option Nat
deriving DecidableEq, Repr

/-- Per-training entry of the progress snapshot. -/
structure TrainingState where
  submode_id : String
  levels : List LevelState
deriving DecidableEq, Repr

/-- Full progress snapshot returned by `get_progress`; the `isoformat`
rendering of `passed_at` is abstracted to the timestamp value itself. -/
structure ProgressSnapshot where
  onboarding_complete : Bool
  trainings : List TrainingState
deriving DecidableEq, Repr

/-- Rows of the user, models the `select ... where user_id == u` in
`get_progress`. -/
def userRows (s : Store) (u : Nat) : Store :=
  List.filter (fun r => r.user_id == u) s

/-- Model of the index built by `get_progress` (a Python dict keyed by
(submode, level): on duplicate keys the later row wins, hence
`getLast?`). -/
def indexGet (rows : Store) (t : String) (l : Nat) : Option TrainingProgress :=
  (List.filter (fun r => r.submode_id == t && r.difficulty_level == l) rows).getLast?

/-- Snapshot built by `get_progress` from the user rows it selected. -/
def snapshotOf (rows : Store) : ProgressSnapshot :=
  { onboarding_complete := !(List.isEmpty rows),
    trainings := TRAINING_ORDER.map (fun t =>
      { submode_id := t,
        levels := DIFFICULTY_LEVELS.map (fun l =>
          match indexGet rows t l with
          | some r =>
            { difficulty_level := l, is_unlocked := r.is_unlocked,
              passed := r.passed, passed_at := r.passed_at }
          | none =>
            { difficulty_level := l, is_unlocked := false,
              passed := false, passed_at := none }) }) }

/-- Model of `ProgressService.get_progress`. -/
def get_progress (s : Store) (u : Nat) : ProgressSnapshot :=
  snapshotOf (userRows s u)

/-- Model of `ProgressService._unlock`: insert an unlocked row when the key
is absent, flip `is_unlocked` when present but locked; the `Bool` is the
state-changed flag the source returns. -/
def unlock (s : Store) (u : Nat) (t : String) (l : Nat) : Bool × Store :=
  match lookupRow s u t l with
  | none =>
    (true, s ++ [{ user_id := u, submode_id := t, difficulty_level := l,
                   is_unlocked := true, passed := false, passed_at := none }])
  | some r =>
    if r.is_unlocked = false then
      (true, modifyFirst setUnlockedField u t l s)
    else
      (false, s)

/-- Model of `ProgressService.unlock_next`: apply the campaign unlock rules
after a pass, collecting only the targets whose state changed. -/
def unlock_next (s : Store) (u : Nat) (t : String) (l : Nat) :
    List (String × Nat) × Store :=
  if l = 1 then
    let p := unlock s u t 2
    ((if p.1 then [(t, 2)] else []), p.2)
  else if l = 2 then
    let p1 := unlock s u t 3
    let base := if p1.1 then [(t, 3)] else []
    match nextSubmode t with
    | none => (base, p1.2)
    | some nt =>
      let p2 := unlock p1.2 u nt 1
      (base ++ (if p2.1 then [(nt, 1)] else []), p2.2)
  else
    ([], s)

end ProgressService

namespace Evaluator

/-- Model of `Evaluator._set_passed`: mark the row passed with a timestamp,
inserting an unlocked passed row when the key is absent.  Note the update
branch leaves `is_unlocked` untouched, exactly as the source does. -/
def set_passed (s : Store) (u : Nat) (t : String) (l : Nat) (now : Nat) : Store :=
  match lookupRow s u t l with
  | some _ => modifyFirst (setPassedField now) u t l s
  | none =>
    s ++ [{ user_id := u, submode_id := t, difficulty_level := l,
            is_unlocked := true, passed := true, passed_at := some now }]

/-- Model of `Evaluator._unlock`: identical state effect to
`ProgressService._unlock` but with no state-changed flag (the source
returns `None`). -/
def unlock (s : Store) (u : Nat) (t : String) (l : Nat) : Store :=
  match lookupRow s u t l with
  | none =>
    s ++ [{ user_id := u, submode_id := t, difficulty_level := l,
            is_unlocked := true, passed := false, passed_at := none }]
  | some r =>
    if r.is_unlocked = false then
      modifyFirst setUnlockedField u t l s
    else
      s

/-- Model of `Evaluator._handle_pass`: mark the level passed, then apply
the (duplicated) unlock rules.  The returned list collects every target
unconditionally — unlike `ProgressService.unlock_next`, targets that were
already unlocked are still reported. -/
def handle_pass (s : Store) (u : Nat) (t : String) (l : Nat) (now : Nat) :
    List (String × Nat) × Store :=
  let s0 := set_passed s u t l now
  if l = 1 then
    ([(t, 2)], unlock s0 u t 2)
  else if l = 2 then
    let s1 := unlock s0 u t 3
    match nextSubmode t with
    | none => ([(t, 3)], s1)
    | some nt => ([(t, 3), (nt, 1)], unlock s1 u nt 1)
  else
    ([], s0)

end Evaluator

/-! ## JSON model (shallow embedding of `json.loads` / `json` values) -/

/-- JSON values as produced by `json.loads`(restricted to the constructs
the scoring responses use: no floats, no \uXXXX escapes). -/
inductive JValue where
  | null
  | bool (b : Bool)
  | num (n : Int)
  | str (s : List Char)
  | arr (xs : List JValue)
  | obj (kvs : List (List Char × JValue))

/-- Structural equality of JSON values, models Python `==` on the objects
`json.loads` returns (duplicate-key objects aside, which never arise in
the comparisons below). -/
def JValue.beq : JValue → JValue → Bool
  | .null, .null => true
  | .bool a, .bool b => a == b
  | .num a, .num b => a == b
  | .str a, .str b => a == b
  | .arr xs, .arr ys => goArr xs ys
  | .obj a, .obj b => goObj a b
  | _, _ => false
where
  goArr : List JValue → List JValue → Bool
    | [], [] => true
    | x :: xs, y :: ys => JValue.beq x y && goArr xs ys
    | _, _ => false
  goObj : List (List Char × JValue) → List (List Char × JValue) → Bool
    | [], [] => true
    | (k, v) :: xs, (k2, v2) :: ys => k == k2 && JValue.beq v v2 && goObj xs ys
    | _, _ => false

instance : BEq JValue := ⟨JValue.beq⟩

/-- JSON whitespace characters. -/
def jIsWs (c : Char) : Bool := c = ' ' || c = '\t' || c = '\n' || c = '\r'

/-- Skip JSON whitespace. -/
def jSkipWs : List Char → List Char
  | [] => []
  | c :: r => if jIsWs c then jSkipWs r else c :: r

/-- Backslash escapes accepted inside JSON strings. -/
def unescapeChar (c : Char) : Option Char :=
  if c = '"' then some '"'
  else if c = '\\' then some '\\'
  else if c = '/' then some '/'
  else if c = 'n' then some '\n'
  else if c = 't' then some '\t'
  else if c = 'r' then some '\r'
  else if c = 'b' then some (Char.ofNat 8)
  else if c = 'f' then some (Char.ofNat 12)
  else none

/-- Parse the body of a JSON string after the opening quote; returns the
decoded characters and the rest after the closing quote. -/
def parseStrBody : List Char → Option (List Char × List Char)
  | [] => none
  | c :: r =>
    if c = '"' then some ([], r)
    else if c = '\\' then
      match r with
      | [] => none
      | e :: r' =>
        match unescapeChar e with
        | some ce =>
          match parseStrBody r' with
          | some (cs, rest) => some (ce :: cs, rest)
          | none => none
        | none => none
    else
      match parseStrBody r with
      | some (cs, rest) => some (c :: cs, rest)
      | none => none

/-- Maximal leading run of decimal digits. -/
def takeDigits : List Char → List Char × List Char
  | [] => ([], [])
  | c :: r =>
    if c.isDigit then
      let p := takeDigits r
      (c :: p.1, p.2)
    else
      ([], c :: r)

/-- Value of a digit run. -/
def digitsToNat (ds : List Char) : Nat :=
  ds.foldl (fun acc c => acc * 10 + (c.toNat - 48)) 0

/-- Parsing modes of the JSON parser: a single value, the elements of an
array after `[`, or the members of an object after the opening brace. -/
inductive PMode where
  | val
  | elems
  | membs
deriving DecidableEq, Repr

/-- Results of the JSON parser corresponding to the three modes. -/
inductive PRes where
  | v (x : JValue)
  | vs (xs : List JValue)
  | kvs (l : List (List Char × JValue))

/-- Fuel-indexed JSON parser (the fuel only bounds nesting/sequence depth;
`loads` supplies enough for any input). -/
def parseF : Nat → PMode → List Char → Option (PRes × List Char)
  | 0, _, _ => none
  | Nat.succ fuel, PMode.val, s =>
    match jSkipWs s with
    | [] => none
    | c :: r =>
      if c = '"' then
        match parseStrBody r with
        | some (cs, r') => some (.v (.str cs), r')
        | none => none
      else if c = lbraceChar then
        match jSkipWs r with
        | d :: r' =>
          if d = rbraceChar then some (.v (.obj []), r')
          else
            match parseF fuel .membs (d :: r') with
            | some (.kvs l, r'') => some (.v (.obj l), r'')
            | _ => none
        | [] => none
      else if c = lbrackChar then
        match jSkipWs r with
        | d :: r' =>
          if d = rbrackChar then some (.v (.arr []), r')
          else
            match parseF fuel .elems (d :: r') with
            | some (.vs xs, r'') => some (.v (.arr xs), r'')
            | _ => none
        | [] => none
      else if c = 'n' then
        match r with
        | 'u' :: 'l' :: 'l' :: r' => some (.v .null, r')
        | _ => none
      else if c = 't' then
        match r with
        | 'r' :: 'u' :: 'e' :: r' => some (.v (.bool true), r')
        | _ => none
      else if c = 'f' then
        match r with
        | 'a' :: 'l' :: 's' :: 'e' :: r' => some (.v (.bool false), r')
        | _ => none
      else if c = '-' then
        match takeDigits r with
        | ([], _) => none
        | (ds, r') => some (.v (.num (-(digitsToNat ds : Int))), r')
      else if c.isDigit then
        let p := takeDigits (c :: r)
        some (.v (.num (digitsToNat p.1)), p.2)
      else none
  | Nat.succ fuel, PMode.elems, s =>
    match parseF fuel .val s with
    | some (.v x, r) =>
      (match jSkipWs r with
       | c :: r' =>
         if c = ',' then
           match parseF fuel .elems r' with
           | some (.vs xs, r'') => some (.vs (x :: xs), r'')
           | _ => none
         else if c = rbrackChar then some (.vs [x], r')
         else none
       | [] => none)
    | _ => none
  | Nat.succ fuel, PMode.membs, s =>
    match jSkipWs s with
    | c :: r =>
      if c = '"' then
        match parseStrBody r with
        | some (k, r1) =>
          (match jSkipWs r1 with
           | d :: r2 =>
             if d = ':' then
               match parseF fuel .val r2 with
               | some (.v x, r3) =>
                 (match jSkipWs r3 with
                  | e :: r4 =>
                    if e = ',' then
                      match parseF fuel .membs r4 with
                      | some (.kvs l, r5) => some (.kvs ((k, x) :: l), r5)
                      | _ => none
                    else if e = rbraceChar then some (.kvs [(k, x)], r4)
                    else none
                  | [] => none)
               | _ => none
             else none
           | [] => none)
        | none => none
      else none
    | [] => none

/-- Model of `json.loads`: parse one value, demand only whitespace after
it, `none` models `json.JSONDecodeError`. -/
def loads (s : List Char) : Option JValue :=
  match parseF (2 * s.length + 4) .val s with
  | some (.v x, rest) => if jSkipWs rest = [] then some x else none
  | _ => none

/-! ## Python string helpers used by `Evaluator._parse_response` -/

/-- Whitespace in the sense of Python's `str.strip()`. -/
def pyIsSpace (c : Char) : Bool :=
  c = ' ' || c = '\t' || c = '\n' || c = '\r' || c = Char.ofNat 11 || c = Char.ofNat 12

/-- Remove trailing whitespace. -/
def rstrip (s : List Char) : List Char := (s.reverse.dropWhile pyIsSpace).reverse

/-- Model of Python's `str.strip()`. -/
def pyStrip (s : List Char) : List Char := rstrip (s.dropWhile pyIsSpace)

/-- The markdown fence marker, three backticks. -/
def fenceChars : List Char := [btChar, btChar, btChar]

/-- The `json` language tag. -/
def jsonTag : List Char := ['j', 's', 'o', 'n']

/-- Whether the list starts with the three-backtick fence marker. -/
def startsBt3 : List Char → Bool
  | c1 :: c2 :: c3 :: _ => c1 = btChar && c2 = btChar && c3 = btChar
  | _ => false

/-- Whether the fence marker occurs anywhere in the list. -/
def hasFence : List Char → Bool
  | [] => false
  | c :: rest => startsBt3 (c :: rest) || hasFence rest

/-- Model of Python's `str.split` specialised to the separator the source
uses, the three-backtick fence marker: leftmost-first, non-overlapping. -/
def splitFence (acc : List Char) : List Char → List (List Char)
  | c1 :: c2 :: c3 :: rest =>
    if c1 = btChar ∧ c2 = btChar ∧ c3 = btChar then
      acc.reverse :: splitFence [] rest
    else
      splitFence (c1 :: acc) (c2 :: c3 :: rest)
  | c :: rest => splitFence (c :: acc) rest
  | [] => [acc.reverse]

namespace Evaluator

/-- Feedback default used by `Evaluator.evaluate` and `_parse_response`. -/
def defaultFeedback : JValue :=
  .obj [("observed".data, .arr []), ("interpretation".data, .arr [])]

/-- Fail-safe dictionary returned by `_parse_response` when parsing fails. -/
def defaultFail : JValue :=
  .obj [("status".data, .str "fail".data), ("feedback".data, defaultFeedback)]

/-- Model of `Evaluator._parse_response`: strip, remove an optional
markdown fence (taking the text between the first two fence markers and
dropping a leading `json` tag), then `json.loads`; any failure inside the
`try` block (an index error on the split or a decode error) yields the
fail-safe dictionary. -/
def parse_response (raw : List Char) : JValue :=
  match (if fenceChars.isPrefixOf (pyStrip raw) then
           match (splitFence [] (pyStrip raw)).get? 1 with
           | none => none
           | some c1 => some (if jsonTag.isPrefixOf c1 then c1.drop 4 else c1)
         else some (pyStrip raw)) with
  | none => defaultFail
  | some c =>
    match loads (pyStrip c) with
    | some v => v
    | none => defaultFail

end Evaluator

/-- Model of Python's `dict.get(key, default)` called on a parsed JSON
value: on a JSON object the lookup (later duplicate keys win, as in a
Python dict); on any other value an `AttributeError` (`.get` does not
exist), which `Evaluator.evaluate` does not catch. -/
def dictGet (v : JValue) (key : List Char) (dflt : JValue) : Except Unit JValue :=
  match v with
  | .obj kvs =>
    .ok (match kvs.reverse.find? (fun kv => kv.1 == key) with
         | some kv => kv.2
         | none => dflt)
  | _ => .error ()

/-- Row of the `training_attempts` table as created by `Evaluator.evaluate`
(the `json.dumps` serialisation of the feedback is abstracted to the
feedback value itself). -/
structure TrainingAttempt where
  user_id : Nat
  conversation_id : Nat
  submode_id : String
  difficulty_level : Nat
  status : AttemptStatus
  feedback : JValue

/-- The database state touched by one evaluation: progress rows and the
append-only attempt history. -/
structure EvalDB where
  progress : Store
  attempts : List TrainingAttempt

/-- Uncaught Python exceptions of `Evaluator.evaluate`:
`valueError` for an empty conversation, `attributeError` for `.get` on a
non-dict parse result. -/
inductive PyErr where
  | valueError
  | attributeError
deriving DecidableEq, Repr

/-- Result dictionary returned by `Evaluator.evaluate`. -/
structure EvalResult where
  status : JValue
  feedback : JValue
  unlocked : List (String × Nat)

namespace Evaluator

/-- Model of `Evaluator.evaluate`.  The external steps (prompt fetch,
transcript rendering, LLM call) only produce the raw response text, which
is a parameter here; `messages` is the loaded conversation transcript and
`now` the current time.  The commit at the end of the source makes the
returned `EvalDB` the persisted state; an error means nothing is
persisted. -/
def evaluate (db : EvalDB) (u conv : Nat) (t : String) (l : Nat)
    (messages : List String) (raw : List Char) (now : Nat) :
    Except PyErr (EvalResult × EvalDB) :=
  if messages.isEmpty then .error .valueError
  else
    let result := parse_response raw
    match dictGet result "status".data (.str "fail".data) with
    | .error _ => .error .attributeError
    | .ok status =>
      match dictGet result "feedback".data defaultFeedback with
      | .error _ => .error .attributeError
      | .ok feedback =>
        let attempt : TrainingAttempt :=
          { user_id := u, conversation_id := conv, submode_id := t,
            difficulty_level := l,
            status := if JValue.beq status (JValue.str "pass".data) then .pass_ else .fail,
            feedback := feedback }
        let attempts' := db.attempts ++ [attempt]
        if JValue.beq status (JValue.str "pass".data) then
          let p := handle_pass db.progress u t l now
          .ok ({ status := status, feedback := feedback, unlocked := p.1 },
               { progress := p.2, attempts := attempts' })
        else
          .ok ({ status := status, feedback := feedback, unlocked := [] },
               { progress := db.progress, attempts := attempts' })

end Evaluator

/-! ## Claim-support definitions -/

/-- The Campaign Graph's pure target computation (`unlockTargets` of the
spec), read off the branch structure of `ProgressService.unlock_next` /
`Evaluator._handle_pass`: the list of (track, level) keys the unlock rules
attempt to unlock after a pass of (t, l). -/
def unlockTargets (t : String) (l : Nat) : List (String × Nat) :=
  if l = 1 then [(t, 2)]
  else if l = 2 then
    match nextSubmode t with
    | some nt => [(t, 3), (nt, 1)]
    | none => [(t, 3)]
  else []

/-- Sequentially unlock a list of targets with `ProgressService._unlock`,
collecting the targets whose state changed (the generic shape of
`unlock_next`). -/
def unlockAll (u : Nat) (s : Store) : List (String × Nat) → List (String × Nat) × Store
  | [] => ([], s)
  | tg :: rest =>
    let p := ProgressService.unlock s u tg.1 tg.2
    let q := unlockAll u p.2 rest
    ((if p.1 then [tg] else []) ++ q.1, q.2)

/-- The progress-store mutations reachable in the system: explicit
re-initialization, the Evaluator's set-passed step, and a single unlock. -/
inductive POp where
  | init (u : Nat)
  | markPassed (u : Nat) (t : String) (l : Nat) (now : Nat)
  | unlockOp (u : Nat) (t : String) (l : Nat)
deriving DecidableEq, Repr

/-- Apply one progress-store operation. -/
def applyOp (s : Store) : POp → Store
  | .init u => ProgressService.initialize_progress s u
  | .markPassed u t l now => Evaluator.set_passed s u t l now
  | .unlockOp u t l => (ProgressService.unlock s u t l).2

/-- Run a sequence of operations from the empty progress store. -/
def runOps (ops : List POp) : Store := ops.foldl applyOp []

/-- A payload wrapped in markdown code fences with the `json` language tag,
as the spec describes scoring responses arriving from the model. -/
def wrapTagged (p : List Char) : List Char :=
  btChar :: btChar :: btChar :: 'j' :: 's' :: 'o' :: 'n' :: '\n' ::
    (p ++ ['\n', btChar, btChar, btChar])

/-- A payload wrapped in untagged markdown code fences. -/
def wrapPlain (p : List Char) : List Char :=
  btChar :: btChar :: btChar :: '\n' :: (p ++ ['\n', btChar, btChar, btChar])

/-- Unlock pattern after initialization, stated as the spec words it:
levels 1 and 2 of the first track and level 1 of the second track. -/
def initUnlockedB (t : String) (l : Nat) : Bool :=
  (t == TRAINING_ORDER.getD 0 "" && (l == 1 || l == 2)) ||
    (t == TRAINING_ORDER.getD 1 "" && l == 1)

/-- Invariant of the progress store: every stored row is unlocked, and a
passed row carries a timestamp. -/
def rowsInv (s : Store) : Prop :=
  ∀ r ∈ s, r.is_unlocked = true ∧ (r.passed = true → r.passed_at.isSome = true)

/-! ## Store lemmas -/

theorem keyMatch_mk (u : Nat) (t : String) (l : Nat) (b p : Bool) (pa : Option Nat) :
    keyMatch u t l ⟨u, t, l, b, p, pa⟩ = true := by
  simp [keyMatch]

theorem eq_of_keyMatch {u : Nat} {t : String} {l : Nat} {r : TrainingProgress}
    (h : keyMatch u t l r = true) :
    r.user_id = u ∧ r.submode_id = t ∧ r.difficulty_level = l := by
  simpa [keyMatch, and_assoc] using h

theorem keyMatch_setUnlockedField (u : Nat) (t : String) (l : Nat) (r : TrainingProgress) :
    keyMatch u t l (setUnlockedField r) = keyMatch u t l r := rfl

theorem keyMatch_setPassedField (u : Nat) (t : String) (l : Nat) (now : Nat)
    (r : TrainingProgress) :
    keyMatch u t l (setPassedField now r) = keyMatch u t l r := rfl

theorem lookupRow_append (s1 s2 : Store) (u : Nat) (t : String) (l : Nat) :
    lookupRow (s1 ++ s2) u t l = (lookupRow s1 u t l).or (lookupRow s2 u t l) :=
  List.find?_append

theorem lookupRow_cons (r : TrainingProgress) (rest : Store) (u : Nat) (t : String) (l : Nat) :
    lookupRow (r :: rest) u t l =
      (if keyMatch u t l r then some r else lookupRow rest u t l) := by
  by_cases hk : keyMatch u t l r = true
  · simp [lookupRow, List.find?, hk]
  · simp only [Bool.not_eq_true] at hk
    simp [lookupRow, List.find?, hk]

theorem lookupRow_modifyFirst_self (f : TrainingProgress → TrainingProgress)
    (hf : ∀ u₀ t₀ l₀ r, keyMatch u₀ t₀ l₀ (f r) = keyMatch u₀ t₀ l₀ r)
    (s : Store) (u : Nat) (t : String) (l : Nat) :
    lookupRow (modifyFirst f u t l s) u t l = (lookupRow s u t l).map f := by
  induction s with
  | nil => rfl
  | cons r rest ih =>
    by_cases hk : keyMatch u t l r = true
    · simp [modifyFirst, hk, lookupRow_cons, hf _ _ _ r]
    · simp only [Bool.not_eq_true] at hk
      simp [modifyFirst, hk, lookupRow_cons, ih]

theorem lookupRow_modifyFirst_ne (f : TrainingProgress → TrainingProgress)
    (hf : ∀ u₀ t₀ l₀ r, keyMatch u₀ t₀ l₀ (f r) = keyMatch u₀ t₀ l₀ r)
    {u u' : Nat} {t t' : String} {l l' : Nat} (s : Store)
    (hne : ¬(u' = u ∧ t' = t ∧ l' = l)) :
    lookupRow (modifyFirst f u t l s) u' t' l' = lookupRow s u' t' l' := by
  induction s with
  | nil => rfl
  | cons r rest ih =>
    by_cases hk : keyMatch u t l r = true
    · have hk' : keyMatch u' t' l' r = false := by
        rcases eq_of_keyMatch hk with ⟨h1, h2, h3⟩
        by_contra hc
        simp only [Bool.not_eq_false] at hc
        rcases eq_of_keyMatch hc with ⟨h1', h2', h3'⟩
        exact hne ⟨h1'.symm.trans h1, h2'.symm.trans h2, h3'.symm.trans h3⟩
      simp [modifyFirst, hk, lookupRow_cons, hf _ _ _ r, hk']
    · simp only [Bool.not_eq_true] at hk
      simp [modifyFirst, hk, lookupRow_cons, ih]

theorem keyMatch_mk_false {u u' : Nat} {t t' : String} {l l' : Nat}
    (hne : ¬(u' = u ∧ t' = t ∧ l' = l)) (b p : Bool) (pa : Option Nat) :
    keyMatch u' t' l' ⟨u, t, l, b, p, pa⟩ = false := by
  by_contra hc
  simp only [Bool.not_eq_false] at hc
  rcases eq_of_keyMatch hc with ⟨h1, h2, h3⟩
  exact hne ⟨h1.symm, h2.symm, h3.symm⟩

/-! ### `ProgressService._unlock` lemmas -/

theorem unlock_fst (s : Store) (u : Nat) (t : String) (l : Nat) :
    (ProgressService.unlock s u t l).1 = !isUnlocked s u t l := by
  unfold ProgressService.unlock isUnlocked
  cases h : lookupRow s u t l with
  | none => simp
  | some r => cases hb : r.is_unlocked <;> simp [hb]

theorem isUnlocked_unlock_self (s : Store) (u : Nat) (t : String) (l : Nat) :
    isUnlocked (ProgressService.unlock s u t l).2 u t l = true := by
  unfold ProgressService.unlock
  cases h : lookupRow s u t l with
  | none =>
    simp only [isUnlocked, lookupRow_append, h, Option.none_or]
    simp [lookupRow_cons, keyMatch_mk]
  | some r =>
    cases hb : r.is_unlocked with
    | false =>
      simp only [hb, if_pos]
      have := lookupRow_modifyFirst_self setUnlockedField
        (fun u₀ t₀ l₀ r => keyMatch_setUnlockedField u₀ t₀ l₀ r) s u t l
      simp [isUnlocked, this, h, setUnlockedField]
    | true =>
      simp [hb, isUnlocked, h]

theorem lookupRow_unlock_ne (s : Store) (u : Nat) (t : String) (l : Nat)
    (u' : Nat) (t' : String) (l' : Nat) (hne : ¬(u' = u ∧ t' = t ∧ l' = l)) :
    lookupRow (ProgressService.unlock s u t l).2 u' t' l' = lookupRow s u' t' l' := by
  unfold ProgressService.unlock
  cases h : lookupRow s u t l with
  | none =>
    simp [lookupRow_append, lookupRow_cons, keyMatch_mk_false hne, lookupRow]
  | some r =>
    cases hb : r.is_unlocked with
    | false =>
      simp only [hb, if_pos]
      exact lookupRow_modifyFirst_ne setUnlockedField
        (fun u₀ t₀ l₀ r => keyMatch_setUnlockedField u₀ t₀ l₀ r) s hne
    | true => simp [hb]

theorem passedB_unlock (s : Store) (u : Nat) (t : String) (l : Nat)
    (u' : Nat) (t' : String) (l' : Nat) :
    passedB (ProgressService.unlock s u t l).2 u' t' l' = passedB s u' t' l' := by
  by_cases hsame : u' = u ∧ t' = t ∧ l' = l
  · rcases hsame with ⟨rfl, rfl, rfl⟩
    unfold ProgressService.unlock
    cases h : lookupRow s u' t' l' with
    | none =>
      simp [passedB, lookupRow_append, h, lookupRow_cons, keyMatch_mk]
    | some r =>
      cases hb : r.is_unlocked with
      | false =>
        have := lookupRow_modifyFirst_self setUnlockedField
          (fun u₀ t₀ l₀ r => keyMatch_setUnlockedField u₀ t₀ l₀ r) s u' t' l'
        simp [hb, passedB, this, h, setUnlockedField]
      | true => simp [hb, passedB, h]
  · simp [passedB, lookupRow_unlock_ne s u t l u' t' l' hsame]

theorem unlock_already {s : Store} {u : Nat} {t : String} {l : Nat}
    (h : isUnlocked s u t l = true) :
    ProgressService.unlock s u t l = (false, s) := by
  unfold ProgressService.unlock
  cases hl : lookupRow s u t l with
  | none =>
    rw [isUnlocked, hl] at h
    exact absurd h (by simp)
  | some r =>
    have hb : r.is_unlocked = true := by simpa [isUnlocked, hl] using h
    simp [hb]


/-! ### `unlock_next` structure lemmas -/

theorem unlock_next_eq_unlockAll (s : Store) (u : Nat) (t : String) (l : Nat) :
    ProgressService.unlock_next s u t l = unlockAll u s (unlockTargets t l) := by
  by_cases h1 : l = 1
  · subst h1
    simp [ProgressService.unlock_next, unlockTargets, unlockAll]
  · by_cases h2 : l = 2
    · subst h2
      cases hn : nextSubmode t with
      | none => simp [ProgressService.unlock_next, unlockTargets, unlockAll, hn, h1]
      | some nt => simp [ProgressService.unlock_next, unlockTargets, unlockAll, hn, h1]
    · simp [ProgressService.unlock_next, unlockTargets, unlockAll, h1, h2]

theorem unlock_next_filter (s : Store) (u : Nat) (t : String) (l : Nat) :
    (ProgressService.unlock_next s u t l).1 =
      (unlockTargets t l).filter (fun tg => !isUnlocked s u tg.1 tg.2) := by
  by_cases h1 : l = 1
  · subst h1
    cases hb : isUnlocked s u t 2 <;>
      simp [ProgressService.unlock_next, unlockTargets, unlock_fst, hb, List.filter]
  · by_cases h2 : l = 2
    · subst h2
      cases hn : nextSubmode t with
      | none =>
        cases hb : isUnlocked s u t 3 <;>
          simp [ProgressService.unlock_next, unlockTargets, hn, h1, unlock_fst, hb,
            List.filter]
      | some nt =>
        have h31 : isUnlocked (ProgressService.unlock s u t 3).2 u nt 1 =
            isUnlocked s u nt 1 := by
          unfold isUnlocked
          rw [lookupRow_unlock_ne s u t 3 u nt 1 (fun hc => absurd hc.2.2 (by decide))]
        cases hb3 : isUnlocked s u t 3 <;> cases hb1 : isUnlocked s u nt 1 <;>
          simp [ProgressService.unlock_next, unlockTargets, hn, h1, unlock_fst, h31,
            hb3, hb1, List.filter]
    · simp [ProgressService.unlock_next, unlockTargets, h1, h2]

theorem unlock_next_passedB (s : Store) (u : Nat) (t : String) (l : Nat)
    (u' : Nat) (t' : String) (l' : Nat) :
    passedB (ProgressService.unlock_next s u t l).2 u' t' l' = passedB s u' t' l' := by
  by_cases h1 : l = 1
  · subst h1
    simp [ProgressService.unlock_next, passedB_unlock]
  · by_cases h2 : l = 2
    · subst h2
      cases hn : nextSubmode t with
      | none => simp [ProgressService.unlock_next, hn, h1, passedB_unlock]
      | some nt => simp [ProgressService.unlock_next, hn, h1, passedB_unlock]
    · simp [ProgressService.unlock_next, h1, h2]

theorem unlock_next_unlocks (s : Store) (u : Nat) (t : String) (l : Nat) :
    ((unlockTargets t l).all
      (fun tg => isUnlocked (ProgressService.unlock_next s u t l).2 u tg.1 tg.2)) = true := by
  by_cases h1 : l = 1
  · subst h1
    simp [ProgressService.unlock_next, unlockTargets, isUnlocked_unlock_self]
  · by_cases h2 : l = 2
    · subst h2
      cases hn : nextSubmode t with
      | none =>
        simp [ProgressService.unlock_next, unlockTargets, hn, h1, isUnlocked_unlock_self]
      | some nt =>
        have key3 : isUnlocked
            (ProgressService.unlock (ProgressService.unlock s u t 3).2 u nt 1).2 u t 3 =
            true := by
          unfold isUnlocked
          rw [lookupRow_unlock_ne ((ProgressService.unlock s u t 3).2) u nt 1 u t 3
            (fun hc => absurd hc.2.2 (by decide))]
          have h0 := isUnlocked_unlock_self s u t 3
          unfold isUnlocked at h0
          exact h0
        simp [ProgressService.unlock_next, unlockTargets, hn, h1,
          isUnlocked_unlock_self, key3]
    · simp [ProgressService.unlock_next, unlockTargets, h1, h2]

theorem unlock_next_noop (s : Store) (u : Nat) (t : String) (l : Nat)
    (h : ((unlockTargets t l).all (fun tg => isUnlocked s u tg.1 tg.2)) = true) :
    ProgressService.unlock_next s u t l = ([], s) := by
  by_cases h1 : l = 1
  · subst h1
    have hb : isUnlocked s u t 2 = true := by simpa [unlockTargets] using h
    simp [ProgressService.unlock_next, unlock_already hb]
  · by_cases h2 : l = 2
    · subst h2
      cases hn : nextSubmode t with
      | none =>
        have hb : isUnlocked s u t 3 = true := by simpa [unlockTargets, hn] using h
        simp [ProgressService.unlock_next, h1, hn, unlock_already hb]
      | some nt =>
        have h' : isUnlocked s u t 3 = true ∧ isUnlocked s u nt 1 = true := by
          simpa [unlockTargets, hn] using h
        have hb3 : isUnlocked s u t 3 = true := h'.1
        have hb1 : isUnlocked s u nt 1 = true := h'.2
        simp [ProgressService.unlock_next, h1, hn, unlock_already hb3, unlock_already hb1]
    · simp [ProgressService.unlock_next, h1, h2]

/-! ### Initialization lemmas -/

theorem userRows_init (s : Store) (u : Nat) :
    ProgressService.userRows (ProgressService.initialize_progress s u) u =
      ProgressService.initRows u := by
  unfold ProgressService.userRows ProgressService.initialize_progress
  rw [List.filter_append]
  have h1 : List.filter (fun r => r.user_id == u)
      (List.filter (fun r => !(r.user_id == u)) s) = [] := by
    induction s with
    | nil => rfl
    | cons r rest ih =>
      by_cases hr : (r.user_id == u) = true
      · simp [List.filter_cons, hr, ih]
      · simp only [Bool.not_eq_true] at hr
        simp [List.filter_cons, hr, ih]
  have h2 : List.filter (fun r => r.user_id == u) (ProgressService.initRows u) =
      ProgressService.initRows u := by
    simp [ProgressService.initRows, ProgressService.initial_unlocks, List.filter]
  rw [h1, h2]
  rfl

theorem initialize_idem (s : Store) (u : Nat) :
    ProgressService.initialize_progress (ProgressService.initialize_progress s u) u =
      ProgressService.initialize_progress s u := by
  unfold ProgressService.initialize_progress
  rw [List.filter_append]
  have h2 : List.filter (fun r => !(r.user_id == u)) (ProgressService.initRows u) = [] := by
    simp [ProgressService.initRows, ProgressService.initial_unlocks, List.filter]
  have h3 : List.filter (fun r => !(r.user_id == u))
      (List.filter (fun r => !(r.user_id == u)) s) =
      List.filter (fun r => !(r.user_id == u)) s := by
    rw [List.filter_filter]
    simp only [Bool.and_self]
  rw [h2, h3]
  simp

theorem get_progress_init (s : Store) (u : Nat) :
    ProgressService.get_progress (ProgressService.initialize_progress s u) u =
      ProgressService.snapshotOf (ProgressService.initRows u) := by
  unfold ProgressService.get_progress
  rw [userRows_init]

theorem snapshotOf_initRows (u : Nat) :
    ProgressService.snapshotOf (ProgressService.initRows u) =
      { onboarding_complete := true,
        trainings := TRAINING_ORDER.map (fun t =>
          { submode_id := t,
            levels := DIFFICULTY_LEVELS.map (fun l =>
              { difficulty_level := l, is_unlocked := initUnlockedB t l,
                passed := false, passed_at := none }) }) } := by
  simp [ProgressService.snapshotOf, ProgressService.initRows,
    ProgressService.initial_unlocks, ProgressService.indexGet, TRAINING_ORDER,
    DIFFICULTY_LEVELS, initUnlockedB, List.filter]

/-! ### Reachable-state invariant lemmas -/

theorem mem_modifyFirst {f : TrainingProgress → TrainingProgress} {u : Nat} {t : String}
    {l : Nat} {s : Store} {r' : TrainingProgress} (h : r' ∈ modifyFirst f u t l s) :
    r' ∈ s ∨ ∃ r, r ∈ s ∧ r' = f r := by
  induction s with
  | nil => simp [modifyFirst] at h
  | cons r rest ih =>
    by_cases hk : keyMatch u t l r = true
    · rw [modifyFirst, if_pos hk] at h
      rcases List.mem_cons.mp h with h1 | h1
      · exact Or.inr ⟨r, List.mem_cons_self r rest, h1⟩
      · exact Or.inl (List.mem_cons_of_mem r h1)
    · rw [modifyFirst, if_neg hk] at h
      rcases List.mem_cons.mp h with h1 | h1
      · exact Or.inl (h1 ▸ List.mem_cons_self r rest)
      · rcases ih h1 with h2 | ⟨r1, hr1, h2⟩
        · exact Or.inl (List.mem_cons_of_mem r h2)
        · exact Or.inr ⟨r1, List.mem_cons_of_mem r hr1, h2⟩

theorem rowsInv_init {s : Store} (u : Nat) (hs : rowsInv s) :
    rowsInv (ProgressService.initialize_progress s u) := by
  intro r hr
  unfold ProgressService.initialize_progress at hr
  rcases List.mem_append.mp hr with h | h
  · exact hs r (List.mem_of_mem_filter h)
  · simp [ProgressService.initRows, ProgressService.initial_unlocks] at h
    rcases h with h | h | h <;> subst h <;> exact ⟨rfl, fun hc => Bool.noConfusion hc⟩

theorem rowsInv_set_passed {s : Store} (u : Nat) (t : String) (l : Nat) (now : Nat)
    (hs : rowsInv s) : rowsInv (Evaluator.set_passed s u t l now) := by
  intro r hr
  unfold Evaluator.set_passed at hr
  cases hl : lookupRow s u t l with
  | some r0 =>
    rw [hl] at hr
    rcases mem_modifyFirst hr with h | ⟨r1, hr1, h⟩
    · exact hs r h
    · subst h
      exact ⟨(hs r1 hr1).1, fun _ => rfl⟩
  | none =>
    rw [hl] at hr
    rcases List.mem_append.mp hr with h | h
    · exact hs r h
    · simp at h
      subst h
      exact ⟨rfl, fun _ => rfl⟩

theorem rowsInv_unlock {s : Store} (u : Nat) (t : String) (l : Nat) (hs : rowsInv s) :
    rowsInv (ProgressService.unlock s u t l).2 := by
  intro r hr
  unfold ProgressService.unlock at hr
  cases hl : lookupRow s u t l with
  | none =>
    simp only [hl] at hr
    rcases List.mem_append.mp hr with h | h
    · exact hs r h
    · simp at h
      subst h
      exact ⟨rfl, fun hc => Bool.noConfusion hc⟩
  | some r0 =>
    simp only [hl] at hr
    by_cases hb : r0.is_unlocked = false
    · rw [if_pos hb] at hr
      rcases mem_modifyFirst hr with h | ⟨r1, hr1, h⟩
      · exact hs r h
      · subst h
        exact ⟨rfl, fun hp => (hs r1 hr1).2 hp⟩
    · rw [if_neg hb] at hr
      exact hs r hr

theorem rowsInv_foldl (ops : List POp) : ∀ s : Store, rowsInv s →
    rowsInv (List.foldl applyOp s ops) := by
  induction ops with
  | nil => exact fun s hs => hs
  | cons op rest ih =>
    intro s hs
    refine ih _ ?_
    cases op with
    | init u => exact rowsInv_init u hs
    | markPassed u t l now => exact rowsInv_set_passed u t l now hs
    | unlockOp u t l => exact rowsInv_unlock u t l hs

theorem rowsInv_runOps (ops : List POp) : rowsInv (runOps ops) :=
  rowsInv_foldl ops [] (fun r hr => absurd hr (List.not_mem_nil r))

/-! ### Python strip lemmas -/

theorem rstrip_append_nonspace (s : List Char) (c : Char) (h : pyIsSpace c = false) :
    rstrip (s ++ [c]) = s ++ [c] := by
  unfold rstrip
  rw [List.reverse_append]
  simp [List.dropWhile_cons, h]

theorem rstrip_append_space (x : List Char) (c : Char) (h : pyIsSpace c = true) :
    rstrip (x ++ [c]) = rstrip x := by
  unfold rstrip
  rw [List.reverse_append]
  simp [List.dropWhile_cons, h]

theorem pyStrip_eq_self_of (a : Char) (m : List Char) (b : Char)
    (ha : pyIsSpace a = false) (hb : pyIsSpace b = false) :
    pyStrip (a :: (m ++ [b])) = a :: (m ++ [b]) := by
  unfold pyStrip
  rw [List.dropWhile_cons]
  simp only [ha, Bool.false_eq_true, if_false]
  have : a :: (m ++ [b]) = (a :: m) ++ [b] := by simp
  rw [this, rstrip_append_nonspace _ _ hb]

theorem dropWhile_append_char (p : Char → Bool) (l1 l2 : List Char) :
    List.dropWhile p (l1 ++ l2) =
      if (List.dropWhile p l1).isEmpty then List.dropWhile p l2
      else List.dropWhile p l1 ++ l2 := by
  induction l1 with
  | nil => simp
  | cons c rest ih =>
    by_cases hc : p c = true
    · simpa [List.dropWhile_cons, hc] using ih
    · simp only [Bool.not_eq_true] at hc
      simp [List.dropWhile_cons, hc]

theorem pyStrip_wrap_inner (p : List Char) :
    pyStrip ('\n' :: (p ++ ['\n'])) = pyStrip p := by
  unfold pyStrip
  rw [List.dropWhile_cons]
  simp only [show pyIsSpace '\n' = true from rfl, if_true]
  rw [dropWhile_append_char]
  cases hd : List.dropWhile pyIsSpace p with
  | nil => rfl
  | cons c rest =>
    simp only [hd, List.isEmpty_cons, if_false, Bool.false_eq_true]
    exact rstrip_append_space _ _ rfl

theorem dropWhile_head_false {p : Char → Bool} {l : List Char} {c : Char} {t : List Char}
    (h : List.dropWhile p l = c :: t) : p c = false := by
  induction l with
  | nil => simp at h
  | cons a rest ih =>
    rw [List.dropWhile_cons] at h
    by_cases ha : p a = true
    · rw [if_pos ha] at h
      exact ih h
    · simp only [Bool.not_eq_true] at ha
      rw [ha] at h
      simp only [Bool.false_eq_true, if_false] at h
      cases h
      exact ha

theorem rstrip_prefix_decomp (x : List Char) : ∃ m, x = rstrip x ++ m := by
  obtain ⟨a, ha⟩ := (List.dropWhile_suffix pyIsSpace : List.dropWhile pyIsSpace x.reverse <:+ x.reverse)
  refine ⟨a.reverse, ?_⟩
  unfold rstrip
  calc x = x.reverse.reverse := by rw [List.reverse_reverse]
  _ = (a ++ List.dropWhile pyIsSpace x.reverse).reverse := by rw [ha]
  _ = (List.dropWhile pyIsSpace x.reverse).reverse ++ a.reverse := by rw [List.reverse_append]

theorem dropWhile_rstrip (x : List Char)
    (hx : List.dropWhile pyIsSpace x = x) :
    List.dropWhile pyIsSpace (rstrip x) = rstrip x := by
  cases hr : rstrip x with
  | nil => rfl
  | cons c t =>
    obtain ⟨m, hm⟩ := rstrip_prefix_decomp x
    rw [hr] at hm
    have hc : pyIsSpace c = false := by
      have : List.dropWhile pyIsSpace (c :: (t ++ m)) = c :: (t ++ m) := by
        rw [← List.cons_append, ← hm]
        exact hx
      by_contra hcc
      simp only [Bool.not_eq_false] at hcc
      rw [List.dropWhile_cons, if_pos hcc] at this
      have h1 : (List.dropWhile pyIsSpace (t ++ m)).length ≤ (t ++ m).length :=
        (List.dropWhile_suffix pyIsSpace).length_le
      rw [this] at h1
      simp at h1
    rw [List.dropWhile_cons, hc]
    simp

theorem rstrip_idem (x : List Char) : rstrip (rstrip x) = rstrip x := by
  unfold rstrip
  rw [List.reverse_reverse, List.dropWhile_idempotent]

theorem pyStrip_idem (p : List Char) : pyStrip (pyStrip p) = pyStrip p := by
  unfold pyStrip
  rw [dropWhile_rstrip (List.dropWhile pyIsSpace p) (List.dropWhile_idempotent _ _)]
  exact rstrip_idem _

/-! ### Fence-marker lemmas -/

theorem startsBt3_false_of_hasFence {l : List Char} (h : hasFence l = false) :
    startsBt3 l = false := by
  cases l with
  | nil => rfl
  | cons c rest =>
    rw [hasFence] at h
    exact (Bool.or_eq_false_iff.mp h).1

theorem hasFence_tail {c : Char} {l : List Char} (h : hasFence (c :: l) = false) :
    hasFence l = false := by
  rw [hasFence] at h
  exact (Bool.or_eq_false_iff.mp h).2

theorem hasFence_suffix {l1 l2 : List Char} (h : l2 <:+ l1) (hf : hasFence l1 = false) :
    hasFence l2 = false := by
  obtain ⟨a, rfl⟩ := h
  induction a with
  | nil => exact hf
  | cons c a' ih => exact ih (hasFence_tail hf)

theorem hasFence_prefix {l2 l1 : List Char} (h : l2 <+: l1) (hf : hasFence l1 = false) :
    hasFence l2 = false := by
  induction l2 generalizing l1 with
  | nil => rfl
  | cons c t2 ih =>
    obtain ⟨t1, hl1, ht⟩ : ∃ t1, l1 = c :: t1 ∧ t2 <+: t1 := by
      obtain ⟨m, hm⟩ := h
      exact ⟨t2 ++ m, by rw [← hm]; rfl, ⟨m, rfl⟩⟩
    subst hl1
    rw [hasFence, Bool.or_eq_false_iff]
    refine ⟨?_, ih ht (hasFence_tail hf)⟩
    cases t2 with
    | nil => rfl
    | cons c2 t2' =>
      cases t2' with
      | nil => rfl
      | cons c3 rest2 =>
        obtain ⟨t1', hl1', ht'⟩ : ∃ t1', t1 = c2 :: t1' ∧ c3 :: rest2 <+: t1' := by
          obtain ⟨m, hm⟩ := ht
          exact ⟨c3 :: rest2 ++ m, by rw [← hm]; rfl, ⟨m, rfl⟩⟩
        obtain ⟨t1'', hl1''⟩ : ∃ t1'', t1' = c3 :: t1'' := by
          obtain ⟨m, hm⟩ := ht'
          exact ⟨rest2 ++ m, by rw [← hm]; rfl⟩
        subst hl1'
        subst hl1''
        have h0 : startsBt3 (c :: c2 :: c3 :: t1'') = false :=
          startsBt3_false_of_hasFence hf
        rw [startsBt3] at h0 ⊢
        exact h0

theorem hasFence_pyStrip {p : List Char} (h : hasFence p = false) :
    hasFence (pyStrip p) = false := by
  unfold pyStrip
  have h1 : hasFence (List.dropWhile pyIsSpace p) = false :=
    hasFence_suffix (List.dropWhile_suffix pyIsSpace) h
  obtain ⟨m, hm⟩ := rstrip_prefix_decomp (List.dropWhile pyIsSpace p)
  exact hasFence_prefix ⟨m, hm.symm⟩ h1

theorem isPrefixOf_fence_eq_startsBt3 (l : List Char) :
    fenceChars.isPrefixOf l = startsBt3 l := by
  cases l with
  | nil => rfl
  | cons c1 rest =>
    cases rest with
    | nil => simp [fenceChars, List.isPrefixOf, startsBt3]
    | cons c2 rest2 =>
      cases rest2 with
      | nil => simp [fenceChars, List.isPrefixOf, startsBt3]
      | cons c3 rest3 =>
        simp only [fenceChars, List.isPrefixOf, startsBt3, Bool.and_true]
        have hbd : ∀ a b : Char, (a == b) = decide (b = a) := by
          intro a b
          by_cases h : a = b
          · subst h; simp
          · have h' : ¬b = a := fun hc => h hc.symm
            simp [h, h']
        simp [hbd, Bool.and_assoc]

theorem fence_isPrefixOf_false {l : List Char} (h : hasFence l = false) :
    fenceChars.isPrefixOf l = false := by
  rw [isPrefixOf_fence_eq_startsBt3]
  exact startsBt3_false_of_hasFence h

/-! ### splitFence lemmas -/

theorem splitFence_skip : ∀ (a : List Char), (∀ c ∈ a, ¬c = btChar) →
    ∀ (acc y : List Char), 2 ≤ y.length →
      splitFence acc (a ++ y) = splitFence (a.reverse ++ acc) y := by
  intro a
  induction a with
  | nil => intro _ acc y _; simp
  | cons c a' ih =>
    intro hbt acc y hy
    have hlen : 2 ≤ (a' ++ y).length := by
      rw [List.length_append]
      omega
    obtain ⟨c2, X, hX⟩ : ∃ c2 X, a' ++ y = c2 :: X := by
      cases hxy : a' ++ y with
      | nil => rw [hxy] at hlen; simp at hlen
      | cons c2 X => exact ⟨c2, X, rfl⟩
    obtain ⟨c3, X', hX'⟩ : ∃ c3 X', X = c3 :: X' := by
      cases hxx : X with
      | nil =>
        rw [hxx] at hX
        rw [hX] at hlen
        simp at hlen
      | cons c3 X' => exact ⟨c3, X', rfl⟩
    have hshape : (c :: a') ++ y = c :: c2 :: c3 :: X' := by
      rw [List.cons_append, hX, hX']
    have hc : ¬(c = btChar ∧ c2 = btChar ∧ c3 = btChar) :=
      fun hcon => (hbt c (List.mem_cons_self c a')) hcon.1
    rw [hshape]
    rw [splitFence.eq_def]
    simp only []
    rw [if_neg hc]
    have hback : c2 :: c3 :: X' = a' ++ y := by rw [hX, hX']
    rw [hback]
    rw [ih (fun d hd => hbt d (List.mem_cons_of_mem c hd)) (c :: acc) y hy]
    simp

theorem splitFence_payload : ∀ (p : List Char), hasFence p = false →
    ∀ acc, splitFence acc (p ++ '\n' :: fenceChars) =
      [acc.reverse ++ (p ++ ['\n']), []] := by
  intro p
  induction p with
  | nil =>
    intro _ acc
    have h0 : splitFence acc ([] ++ '\n' :: fenceChars) =
        ('\n' :: acc).reverse :: [[]] := rfl
    rw [h0, List.reverse_cons]
    simp
  | cons c p' ihp =>
    intro hp acc
    have hp' : hasFence p' = false := hasFence_tail hp
    obtain ⟨c2, X2, h2⟩ : ∃ c2 X2, p' ++ '\n' :: fenceChars = c2 :: X2 := by
      cases hxy : p' ++ '\n' :: fenceChars with
      | nil =>
        have := congrArg List.length hxy
        simp [fenceChars] at this
      | cons c2 X2 => exact ⟨c2, X2, rfl⟩
    obtain ⟨c3, X3, h3⟩ : ∃ c3 X3, X2 = c3 :: X3 := by
      cases hxx : X2 with
      | nil =>
        rw [hxx] at h2
        have := congrArg List.length h2
        simp [fenceChars, List.length_append] at this
      | cons c3 X3 => exact ⟨c3, X3, rfl⟩
    have hcond : ¬(c = btChar ∧ c2 = btChar ∧ c3 = btChar) := by
      rintro ⟨hc1, hc2, hc3⟩
      cases p' with
      | nil =>
        rw [List.nil_append] at h2
        cases h2
        exact absurd hc2 (by decide)
      | cons d p'' =>
        rw [List.cons_append] at h2
        cases h2
        cases p'' with
        | nil =>
          rw [List.nil_append] at h3
          cases h3
          exact absurd hc3 (by decide)
        | cons e rest =>
          rw [List.cons_append] at h3
          cases h3
          have hs := startsBt3_false_of_hasFence hp
          rw [startsBt3] at hs
          simp [hc1, hc2, hc3] at hs
    have hshape : (c :: p') ++ '\n' :: fenceChars = c :: c2 :: c3 :: X3 := by
      rw [List.cons_append, h2, h3]
    rw [hshape, splitFence.eq_def]
    simp only []
    rw [if_neg hcond]
    have hback : c2 :: c3 :: X3 = p' ++ '\n' :: fenceChars := by rw [h2, h3]
    rw [hback, ihp hp' (c :: acc)]
    simp

/-! ### Wrapped-payload parse lemmas -/

theorem splitFence_wrapTagged (p : List Char) (hp : hasFence p = false) :
    splitFence [] (wrapTagged p) =
      [[], 'j' :: 's' :: 'o' :: 'n' :: '\n' :: (p ++ ['\n']), []] := by
  unfold wrapTagged
  rw [splitFence.eq_def]
  simp only []
  rw [if_pos (by simp)]
  have ha : 'j' :: 's' :: 'o' :: 'n' :: '\n' :: (p ++ ['\n', btChar, btChar, btChar]) =
      ['j', 's', 'o', 'n', '\n'] ++ (p ++ '\n' :: fenceChars) := by
    simp [fenceChars]
  rw [ha]
  rw [splitFence_skip ['j', 's', 'o', 'n', '\n'] (by decide) [] (p ++ '\n' :: fenceChars)
    (by simp [fenceChars])]
  rw [splitFence_payload p hp]
  simp

theorem splitFence_wrapPlain (p : List Char) (hp : hasFence p = false) :
    splitFence [] (wrapPlain p) = [[], '\n' :: (p ++ ['\n']), []] := by
  unfold wrapPlain
  rw [splitFence.eq_def]
  simp only []
  rw [if_pos (by simp)]
  have ha : '\n' :: (p ++ ['\n', btChar, btChar, btChar]) =
      ['\n'] ++ (p ++ '\n' :: fenceChars) := by
    simp [fenceChars]
  rw [ha]
  rw [splitFence_skip ['\n'] (by decide) [] (p ++ '\n' :: fenceChars)
    (by simp [fenceChars])]
  rw [splitFence_payload p hp]
  simp

theorem pyStrip_wrapTagged (p : List Char) : pyStrip (wrapTagged p) = wrapTagged p := by
  have h : wrapTagged p = btChar ::
      ((btChar :: btChar :: 'j' :: 's' :: 'o' :: 'n' :: '\n' ::
        (p ++ ['\n', btChar, btChar])) ++ [btChar]) := by
    simp [wrapTagged]
  rw [h, pyStrip_eq_self_of btChar _ btChar (by decide) (by decide)]

theorem pyStrip_wrapPlain (p : List Char) : pyStrip (wrapPlain p) = wrapPlain p := by
  have h : wrapPlain p = btChar ::
      ((btChar :: btChar :: '\n' :: (p ++ ['\n', btChar, btChar])) ++ [btChar]) := by
    simp [wrapPlain]
  rw [h, pyStrip_eq_self_of btChar _ btChar (by decide) (by decide)]

theorem parse_response_nofence (p : List Char) (hp : hasFence p = false) :
    Evaluator.parse_response p =
      (match loads (pyStrip p) with
       | some v => v
       | none => Evaluator.defaultFail) := by
  unfold Evaluator.parse_response
  rw [fence_isPrefixOf_false (hasFence_pyStrip hp)]
  simp only [Bool.false_eq_true, if_false]
  rw [pyStrip_idem]

theorem parse_response_wrapTagged (p : List Char) (hp : hasFence p = false) :
    Evaluator.parse_response (wrapTagged p) = Evaluator.parse_response p := by
  rw [parse_response_nofence p hp]
  unfold Evaluator.parse_response
  rw [pyStrip_wrapTagged]
  have hpre : fenceChars.isPrefixOf (wrapTagged p) = true := by
    simp [wrapTagged, fenceChars, List.isPrefixOf]
  rw [hpre]
  simp only [if_true]
  rw [splitFence_wrapTagged p hp]
  simp only [List.get?]
  have htag : jsonTag.isPrefixOf
      ('j' :: 's' :: 'o' :: 'n' :: '\n' :: (p ++ ['\n'])) = true := by
    simp [jsonTag, List.isPrefixOf]
  rw [htag]
  simp only [if_true, List.drop]
  rw [show '\n' :: (p ++ ['\n']) = '\n' :: (p ++ ['\n']) from rfl]
  rw [pyStrip_wrap_inner]

theorem parse_response_wrapPlain (p : List Char) (hp : hasFence p = false) :
    Evaluator.parse_response (wrapPlain p) = Evaluator.parse_response p := by
  rw [parse_response_nofence p hp]
  unfold Evaluator.parse_response
  rw [pyStrip_wrapPlain]
  have hpre : fenceChars.isPrefixOf (wrapPlain p) = true := by
    simp [wrapPlain, fenceChars, List.isPrefixOf]
  rw [hpre]
  simp only [if_true]
  rw [splitFence_wrapPlain p hp]
  simp only [List.get?]
  have htag : jsonTag.isPrefixOf ('\n' :: (p ++ ['\n'])) = false := by
    simp [jsonTag, List.isPrefixOf]
  rw [htag]
  simp only [Bool.false_eq_true, if_false]
  rw [pyStrip_wrap_inner]

/-! ## Claim theorems -/

/-- Claim C1 (code bug): the Evaluator's pass-handling is NOT behaviourally
equivalent to `markPassed` + `unlockNext`.  After initialization, passing
(first_contact, 1) makes `Evaluator._handle_pass` report
[(first_contact, 2)] even though that level was already unlocked, while
`markPassed` followed by `ProgressService.unlock_next` on the same state
returns the empty newly-unlocked list; the resulting progress states are
identical, only the reported lists differ. -/
theorem c1_pass_reporting_divergence :
    (Evaluator.handle_pass (ProgressService.initialize_progress [] 0)
        0 "first_contact" 1 5).1 = [("first_contact", 2)] ∧
    (ProgressService.unlock_next
        (Evaluator.set_passed (ProgressService.initialize_progress [] 0)
          0 "first_contact" 1 5)
        0 "first_contact" 1).1 = [] ∧
    (Evaluator.handle_pass (ProgressService.initialize_progress [] 0)
        0 "first_contact" 1 5).2 =
      (ProgressService.unlock_next
        (Evaluator.set_passed (ProgressService.initialize_progress [] 0)
          0 "first_contact" 1 5)
        0 "first_contact" 1).2 := by
  refine ⟨by decide, by decide, by decide⟩

/-- Claim C2 (code bug): a scoring response that is valid JSON but not an
object makes `evaluate` raise (`result.get` on a list raises
`AttributeError`) instead of completing with the fail-safe default, so the
parsing step can raise on some inputs. -/
theorem c2_nonobject_parse_raises :
    Evaluator.evaluate ⟨[], []⟩ 0 0 "first_contact" 1 ["hi"] "[1, 2]".data 0 =
      .error .attributeError := rfl

/-- Claim C3 counterexample: an out-of-range level (5) makes `unlock_next`
return the empty list with the store unchanged — it completes normally
rather than failing with an InvalidLevel error (no such error exists in
the code). -/
theorem c3_out_of_range_silently_ignored :
    ProgressService.unlock_next [] 0 "first_contact" 5 = ([], []) := rfl

/-- Claim C3 as amended: for every level outside {1,2,3}, the unlock
computation performs no unlocks and raises no error — the out-of-range
level is silently ignored (like level 3), not rejected. -/
theorem c3_amended_no_unlocks (s : Store) (u : Nat) (t : String) (l : Nat)
    (h1 : l ≠ 1) (h2 : l ≠ 2) (_h3 : l ≠ 3) :
    ProgressService.unlock_next s u t l = ([], s) := by
  unfold ProgressService.unlock_next
  rw [if_neg h1, if_neg h2]

/-- Witness for the amended claim C3 at level 5. -/
theorem c3_amended_no_unlocks_witness :
    ((5 : Nat) ≠ 1) ∧ ((5 : Nat) ≠ 2) ∧ ((5 : Nat) ≠ 3) ∧
      ProgressService.unlock_next [] 0 "first_contact" 5 = ([], []) :=
  ⟨by decide, by decide, by decide,
    c3_amended_no_unlocks [] 0 "first_contact" 5 (by decide) (by decide) (by decide)⟩

/-- Claim C4: for every track in the campaign order, a pass at level 1
targets exactly (T,2); at level 2 exactly (T,3) plus (nextTrack, 1) when a
next track exists and exactly (T,3) for the last track; at level 3
nothing; and on every user state `unlock_next` is exactly the sequential
unlock of those targets. -/
theorem c4_unlock_targets (T : String) (s : Store) (u : Nat) (l : Nat)
    (hT : T ∈ TRAINING_ORDER) :
    unlockTargets T 1 = [(T, 2)] ∧
    (nextSubmode T).elim (unlockTargets T 2 = [(T, 3)])
      (fun nt => unlockTargets T 2 = [(T, 3), (nt, 1)]) ∧
    unlockTargets T 3 = [] ∧
    ProgressService.unlock_next s u T l = unlockAll u s (unlockTargets T l) := by
  refine ⟨rfl, ?_, rfl, unlock_next_eq_unlockAll s u T l⟩
  fin_cases hT <;> exact rfl

/-- Witness for claim C4 at the first track. -/
theorem c4_unlock_targets_witness :
    ("first_contact" ∈ TRAINING_ORDER) ∧
    (unlockTargets "first_contact" 1 = [("first_contact", 2)] ∧
     (nextSubmode "first_contact").elim
       (unlockTargets "first_contact" 2 = [("first_contact", 3)])
       (fun nt => unlockTargets "first_contact" 2 = [("first_contact", 3), (nt, 1)]) ∧
     unlockTargets "first_contact" 3 = [] ∧
     ProgressService.unlock_next [] 0 "first_contact" 1 =
       unlockAll 0 [] (unlockTargets "first_contact" 1)) :=
  ⟨by decide, c4_unlock_targets "first_contact" [] 0 1 (by decide)⟩

/-- Claim C5: `unlock_next` returns exactly the targets that were locked
before the call (already-unlocked targets are excluded), never changes any
`passed` flag, leaves every computed target unlocked, and a second
identical call returns the empty list and changes nothing. -/
theorem c5_unlock_next_state_change (s : Store) (u : Nat) (t : String) (l : Nat) :
    (ProgressService.unlock_next s u t l).1 =
      (unlockTargets t l).filter (fun tg => !isUnlocked s u tg.1 tg.2) ∧
    (∀ (u' : Nat) (t' : String) (l' : Nat),
      passedB (ProgressService.unlock_next s u t l).2 u' t' l' = passedB s u' t' l') ∧
    ((unlockTargets t l).all
      (fun tg => isUnlocked (ProgressService.unlock_next s u t l).2 u tg.1 tg.2)) = true ∧
    ProgressService.unlock_next (ProgressService.unlock_next s u t l).2 u t l =
      ([], (ProgressService.unlock_next s u t l).2) :=
  ⟨unlock_next_filter s u t l, unlock_next_passedB s u t l,
   unlock_next_unlocks s u t l,
   unlock_next_noop (ProgressService.unlock_next s u t l).2 u t l
     (unlock_next_unlocks s u t l)⟩

/-- Claim C6: after (re-)initialization the snapshot shows exactly levels
1 and 2 of the first track and level 1 of the second track unlocked,
everything else locked and nothing passed, regardless of prior state; and
initializing twice gives the same store as initializing once. -/
theorem c6_initialize_snapshot (s : Store) (u : Nat) :
    ProgressService.get_progress (ProgressService.initialize_progress s u) u =
      { onboarding_complete := true,
        trainings := TRAINING_ORDER.map (fun t =>
          { submode_id := t,
            levels := DIFFICULTY_LEVELS.map (fun l =>
              { difficulty_level := l, is_unlocked := initUnlockedB t l,
                passed := false, passed_at := none }) }) } ∧
    ProgressService.initialize_progress (ProgressService.initialize_progress s u) u =
      ProgressService.initialize_progress s u :=
  ⟨(get_progress_init s u).trans (snapshotOf_initRows u), initialize_idem s u⟩

/-- Claim C7: in every store reachable from the empty store by
initialization, set-passed and unlock operations, a passed row is unlocked
and carries a timestamp. -/
theorem c7_passed_invariant (ops : List POp) (r : TrainingProgress)
    (hmem : r ∈ runOps ops) (hp : r.passed = true) :
    r.is_unlocked = true ∧ r.passed_at.isSome = true :=
  ⟨(rowsInv_runOps ops r hmem).1, (rowsInv_runOps ops r hmem).2 hp⟩

/-- Witness for claim C7: the row created by initialize-then-mark-passed. -/
theorem c7_passed_invariant_witness :
    ((⟨0, "first_contact", 1, true, true, some 42⟩ : TrainingProgress) ∈
        runOps [POp.init 0, POp.markPassed 0 "first_contact" 1 42]) ∧
    (⟨0, "first_contact", 1, true, true, some 42⟩ : TrainingProgress).passed = true ∧
    ((⟨0, "first_contact", 1, true, true, some 42⟩ : TrainingProgress).is_unlocked = true ∧
      ((⟨0, "first_contact", 1, true, true, some 42⟩ : TrainingProgress).passed_at.isSome
        = true)) :=
  ⟨by decide, by decide,
   c7_passed_invariant [POp.init 0, POp.markPassed 0 "first_contact" 1 42]
     ⟨0, "first_contact", 1, true, true, some 42⟩ (by decide) (by decide)⟩

/-- Claim C8 (code bug): a scoring response whose status field is neither
"pass" nor "fail" is passed through verbatim to the caller — `evaluate`
returns status "great" here, contradicting its own documented
`pass | fail` contract (the Attempt row is coerced to fail, the response
is not). -/
theorem c8_status_passthrough :
    Evaluator.evaluate ⟨[], []⟩ 0 0 "first_contact" 1 ["hi"]
        "\x7b\"status\": \"great\"\x7d".data 0 =
      .ok ({ status := JValue.str "great".data,
             feedback := Evaluator.defaultFeedback, unlocked := [] },
           { progress := [],
             attempts := [{ user_id := 0, conversation_id := 0,
                            submode_id := "first_contact", difficulty_level := 1,
                            status := .fail,
                            feedback := Evaluator.defaultFeedback }] }) ∧
    JValue.str "great".data ≠ JValue.str "pass".data ∧
    JValue.str "great".data ≠ JValue.str "fail".data := by
  refine ⟨rfl, ?_, ?_⟩ <;>
    (intro h; rw [JValue.str.injEq] at h; exact absurd h (by decide))

/-- Claim C9 counterexample: a payload containing the fence marker inside
(a JSON string of three backticks) parses differently wrapped and
unwrapped — the wrapped form is cut at the inner marker and falls back to
the fail-safe dictionary, the unwrapped form parses as a JSON string. -/
theorem c9_fence_inside_payload :
    Evaluator.parse_response (wrapTagged "\"\x60\x60\x60\"".data) ≠
      Evaluator.parse_response "\"\x60\x60\x60\"".data := by
  intro h
  exact JValue.noConfusion
    (show Evaluator.defaultFail = JValue.str "\x60\x60\x60".data from h)

/-- Claim C9 as amended: for every payload that does not contain the
three-backtick fence marker, wrapping it in (newline-delimited) markdown
code fences — tagged `json` or untagged — parses identically to the
unwrapped payload. -/
theorem c9_amended_fence_free_wrap (p : List Char) (hp : hasFence p = false) :
    Evaluator.parse_response (wrapTagged p) = Evaluator.parse_response p ∧
    Evaluator.parse_response (wrapPlain p) = Evaluator.parse_response p :=
  ⟨parse_response_wrapTagged p hp, parse_response_wrapPlain p hp⟩

/-- Witness for the amended claim C9 on the payload `[1]`. -/
theorem c9_amended_fence_free_wrap_witness :
    hasFence "[1]".data = false ∧
    (Evaluator.parse_response (wrapTagged "[1]".data) =
        Evaluator.parse_response "[1]".data ∧
      Evaluator.parse_response (wrapPlain "[1]".data) =
        Evaluator.parse_response "[1]".data) :=
  ⟨by decide, c9_amended_fence_free_wrap "[1]".data (by decide)⟩

/-- Claim C10: an evaluation whose outcome is fail leaves the progress
store untouched and its only write is appending exactly one fail Attempt
row carrying the response feedback. -/
theorem c10_fail_frame (db : EvalDB) (u conv : Nat) (t : String) (l : Nat)
    (messages : List String) (raw : List Char) (now : Nat)
    (res : EvalResult) (db' : EvalDB)
    (hok : Evaluator.evaluate db u conv t l messages raw now = Except.ok (res, db'))
    (hfail : res.status = JValue.str "fail".data) :
    db'.progress = db.progress ∧
    db'.attempts = db.attempts ++
      [{ user_id := u, conversation_id := conv, submode_id := t, difficulty_level := l,
         status := .fail, feedback := res.feedback }] := by
  unfold Evaluator.evaluate at hok
  by_cases hm : messages.isEmpty
  · rw [if_pos hm] at hok
    cases hok
  · rw [if_neg hm] at hok
    simp only [] at hok
    cases hst : dictGet (Evaluator.parse_response raw) "status".data
        (JValue.str "fail".data) with
    | error e => rw [hst] at hok; cases hok
    | ok status =>
      rw [hst] at hok
      cases hfb : dictGet (Evaluator.parse_response raw) "feedback".data
          Evaluator.defaultFeedback with
      | error e => rw [hfb] at hok; cases hok
      | ok feedback =>
        rw [hfb] at hok
        by_cases hp : JValue.beq status (JValue.str "pass".data) = true
        · simp only [hp, if_true] at hok
          rw [Except.ok.injEq, Prod.mk.injEq] at hok
          have hres : res.status = status := by rw [← hok.1]
          rw [hfail] at hres
          rw [← hres] at hp
          exact absurd hp (by decide)
        · simp only [Bool.not_eq_true] at hp
          simp only [hp, Bool.false_eq_true, if_false] at hok
          rw [Except.ok.injEq, Prod.mk.injEq] at hok
          refine ⟨?_, ?_⟩
          · rw [← hok.2]
          · rw [← hok.2, ← hok.1]

/-- Witness for claim C10 on a garbage (unparseable) scoring response. -/
theorem c10_fail_frame_witness :
    Evaluator.evaluate ⟨[], []⟩ 0 0 "first_contact" 1 ["hi"] "garbage".data 0 =
      Except.ok (⟨JValue.str "fail".data, Evaluator.defaultFeedback, []⟩,
        ⟨[], [⟨0, 0, "first_contact", 1, .fail, Evaluator.defaultFeedback⟩]⟩) ∧
    (⟨JValue.str "fail".data, Evaluator.defaultFeedback, []⟩ : EvalResult).status =
      JValue.str "fail".data ∧
    ((⟨[], [⟨0, 0, "first_contact", 1, .fail, Evaluator.defaultFeedback⟩]⟩ : EvalDB).progress =
        (⟨[], []⟩ : EvalDB).progress ∧
      (⟨[], [⟨0, 0, "first_contact", 1, .fail, Evaluator.defaultFeedback⟩]⟩ : EvalDB).attempts =
        (⟨[], []⟩ : EvalDB).attempts ++
          [⟨0, 0, "first_contact", 1, .fail,
            (⟨JValue.str "fail".data, Evaluator.defaultFeedback, []⟩ : EvalResult).feedback⟩]) :=
  ⟨rfl, rfl,
   c10_fail_frame ⟨[], []⟩ 0 0 "first_contact" 1 ["hi"] "garbage".data 0
     ⟨JValue.str "fail".data, Evaluator.defaultFeedback, []⟩
     ⟨[], [⟨0, 0, "first_contact", 1, .fail, Evaluator.defaultFeedback⟩]⟩ rfl rfl⟩
